import Mathlib

/-!
Shallow embedding of the two manifest-builder scripts
(`create_soundlist.py` and `scripts/create_audiomap.py`).
Filenames and paths are modelled as `List Char`; the Python string
operations used by the scripts (`str.replace`, `str.endswith`, `in`,
`list.sort(key=...)`) are embedded as executable Lean functions, and the
two `main` bodies become pure functions of the directory listings (plus,
for the extended variant, an oracle for the MP3 duration reads).
-/

namespace Gamejam

/-- Python `s.replace(old, new)` with an explicit skip counter: the scan
walks the string left to right; when `old` matches at the current position
(and `old` is nonempty) it emits `new` and skips the matched characters,
otherwise it keeps the current character.  The skip counter makes the
recursion structural, so the function reduces in the kernel. -/
def pyReplaceAux (old new : List Char) : Nat → List Char → List Char
  | 0, [] => []
  | 0, c :: rest =>
    if old.isPrefixOf (c :: rest) ∧ old ≠ [] then
      new ++ pyReplaceAux old new (old.length - 1) rest
    else
      c :: pyReplaceAux old new 0 rest
  | _ + 1, [] => []
  | skip + 1, _ :: rest => pyReplaceAux old new skip rest

/-- Python `s.replace(old, new)`: replace every non-overlapping occurrence
of `old` in `s`, scanning left to right (for nonempty `old`). -/
def pyReplace (old new s : List Char) : List Char :=
  pyReplaceAux old new 0 s

/-- Whether `old` occurs as a contiguous substring of `s`. -/
def isSubstr (old : List Char) : List Char → Bool
  | [] => old.isPrefixOf []
  | c :: rest => old.isPrefixOf (c :: rest) || isSubstr old rest

/-- The sound-file extension ".wav" (`create_soundlist.py` line 12). -/
def wav : List Char := ['.', 'w', 'a', 'v']

/-- The icon-candidate infix "__icon." (lines 19 and 23 of the two scripts). -/
def iconMid : List Char := ['_', '_', 'i', 'c', 'o', 'n', '.']

/-- The extension list ["png", "svg"] iterated by the icon loop, in source
order (`create_soundlist.py` line 18). -/
def extensions : List (List Char) := [['p', 'n', 'g'], ['s', 'v', 'g']]

/-- The "png" element of `extensions`. -/
def pngExt : List Char := ['p', 'n', 'g']

/-- The "svg" element of `extensions`. -/
def svgExt : List Char := ['s', 'v', 'g']

/-- The full icon suffix "__icon.<extension>". -/
def iconSuffix (extension : List Char) : List Char := iconMid ++ extension

/-- The candidate icon filename `filename.replace(".wav", f"__icon.{extension}")`
computed at line 19 of `create_soundlist.py` / line 23 of `create_audiomap.py`. -/
def iconCandidate (filename extension : List Char) : List Char :=
  pyReplace wav (iconSuffix extension) filename

/-- The asset root "sounds/" used for the `audio` field in both variants and
for the `icon` field in the simple variant. -/
def soundsRoot : List Char := ['s', 'o', 'u', 'n', 'd', 's', '/']

/-- The asset root "assets/sounds/" used for the `icon` field in the extended
variant (`create_audiomap.py` line 25). -/
def assetsSoundsRoot : List Char :=
  ['a', 's', 's', 'e', 't', 's', '/'] ++ soundsRoot

/-- One record of the sound manifest: the dict
`{"audio": ..., "icon": ...}` built by the per-file loop. -/
structure SoundEntry where
  audio : List Char
  icon : Option (List Char)
deriving DecidableEq, Repr

/-- The icon-resolution loop `for extension in ["png", "svg"]: ... break`:
return the first candidate icon filename present in the directory listing,
or `none` when no candidate is listed. -/
def findIcon (filenames : List (List Char)) (filename : List Char) :
    List (List Char) → Option (List Char)
  | [] => none
  | extension :: rest =>
    if iconCandidate filename extension ∈ filenames then
      some (iconCandidate filename extension)
    else
      findIcon filenames filename rest

/-- The `SoundEntry` built for one `.wav` filename: `audio` is
"sounds/<filename>"; `icon` is `iconRoot ++ <resolved icon filename>` when a
candidate resolves, else `none`.  `iconRoot` is "sounds/" in the simple
variant and "assets/sounds/" in the extended one. -/
def soundEntry (iconRoot : List Char) (filenames : List (List Char))
    (filename : List Char) : SoundEntry :=
  { audio := soundsRoot ++ filename
    icon := (findIcon filenames filename extensions).map
      (fun ic => iconRoot ++ ic) }

/-- Lexicographic comparison of two character lists by code point, the
order Python uses when sorting strings. -/
def lexLe : List Char → List Char → Bool
  | [], _ => true
  | _ :: _, [] => false
  | a :: as, b :: bs =>
    if a < b then true else if b < a then false else lexLe as bs

/-- The sort key relation `key=lambda x: x["audio"]` on sound entries. -/
def entryLe (a b : SoundEntry) : Prop := lexLe a.audio b.audio = true

instance : DecidableRel entryLe := fun a b =>
  inferInstanceAs (Decidable (lexLe a.audio b.audio = true))

/-- The sound-list construction shared by both scripts: keep the filenames
ending in ".wav", build a `SoundEntry` for each, and sort ascending by the
`audio` field. -/
def buildSoundlist (iconRoot : List Char) (filenames : List (List Char)) :
    List SoundEntry :=
  List.insertionSort entryLe
    ((filenames.filter (fun f => wav.isSuffixOf f)).map
      (soundEntry iconRoot filenames))

/-- The backing-track extension ".mp3" (`create_audiomap.py` line 34). -/
def mp3 : List Char := ['.', 'm', 'p', '3']

/-- The asset root "assets/backing_tracks/" of the `audio` field of backing
tracks (`create_audiomap.py` lines 40 and 45). -/
def backingRoot : List Char :=
  ['a', 's', 's', 'e', 't', 's', '/', 'b', 'a', 'c', 'k', 'i', 'n', 'g',
   '_', 't', 'r', 'a', 'c', 'k', 's', '/']

/-- The scanned directory "../assets/backing_tracks" (`create_audiomap.py`
line 9). -/
def backingDir : List Char :=
  ['.', '.', '/', 'a', 's', 's', 'e', 't', 's', '/', 'b', 'a', 'c', 'k',
   'i', 'n', 'g', '_', 't', 'r', 'a', 'c', 'k', 's']

/-- The filepath `f"{backing_tracks_dir}/{filename}"` handed to `MP3`
(`create_audiomap.py` line 35). -/
def backingPath (filename : List Char) : List Char :=
  backingDir ++ ['/'] ++ filename

/-- One record of the backing-track list: the dict
`{"audio": ..., "duration": ...}`.  Durations are modelled as rationals;
the claims settled here never compute with the numeric value. -/
structure BackingTrackEntry where
  audio : List Char
  duration : Option ℚ
deriving DecidableEq, Repr

/-- The text "Warning: Could not read duration for ". -/
def warnHead : List Char :=
  ['W', 'a', 'r', 'n', 'i', 'n', 'g', ':', ' ', 'C', 'o', 'u', 'l', 'd',
   ' ', 'n', 'o', 't', ' ', 'r', 'e', 'a', 'd', ' ', 'd', 'u', 'r', 'a',
   't', 'i', 'o', 'n', ' ', 'f', 'o', 'r', ' ']

/-- The warning line `f"Warning: Could not read duration for {filename}: {e}"`
printed on a failed duration read (`create_audiomap.py` line 43). -/
def warnMsg (filename e : List Char) : List Char :=
  warnHead ++ filename ++ [':', ' '] ++ e

/-- The try/except body of the backing-track loop for one filename:
`readLen` models `MP3(filepath).info.length`, returning either the duration
or the exception text.  The result is the appended entry together with the
warnings printed for this file (one on failure, none on success). -/
def processBacking (readLen : List Char → Except (List Char) ℚ)
    (filename : List Char) : BackingTrackEntry × List (List Char) :=
  match readLen (backingPath filename) with
  | Except.ok d => ({ audio := backingRoot ++ filename, duration := some d }, [])
  | Except.error e =>
    ({ audio := backingRoot ++ filename, duration := none },
     [warnMsg filename e])

/-- The sort key relation `key=lambda x: x["audio"]` on backing tracks. -/
def btLe (a b : BackingTrackEntry) : Prop := lexLe a.audio b.audio = true

instance : DecidableRel btLe := fun a b =>
  inferInstanceAs (Decidable (lexLe a.audio b.audio = true))

/-- The backing-track pass of `create_audiomap.py` (lines 33-48): keep the
".mp3" filenames, process each, sort the entries ascending by `audio`, and
collect the warnings in emission order. -/
def buildBackingTracks (readLen : List Char → Except (List Char) ℚ)
    (backing_filenames : List (List Char)) :
    List BackingTrackEntry × List (List Char) :=
  let processed :=
    (backing_filenames.filter (fun f => mp3.isSuffixOf f)).map
      (processBacking readLen)
  (List.insertionSort btLe (processed.map Prod.fst),
   (processed.map Prod.snd).flatten)

/-- The output document of the extended variant:
`{"backing_tracks": ..., "sounds": ...}` (`create_audiomap.py` line 51). -/
structure AudioMap where
  backing_tracks : List BackingTrackEntry
  sounds : List SoundEntry
deriving DecidableEq, Repr

/-- The whole of `create_soundlist.py`'s `main` up to the written manifest:
`listing` models `listdir(sound_dir)`, which either raises (`Except.error`)
or returns the filenames.  An `Except.error` result means the run terminated
with no manifest written. -/
def runSimple (listing : Except (List Char) (List (List Char))) :
    Except (List Char) (List SoundEntry) :=
  match listing with
  | Except.error e => Except.error e
  | Except.ok filenames => Except.ok (buildSoundlist soundsRoot filenames)

/-- The whole of `create_audiomap.py`'s `main` up to the written manifest:
the two `listdir` calls happen in source order (sounds first, backing
tracks second) and either may raise; on success the manifest and the
warning lines are produced. -/
def runAudioMap (listSounds listBacking : Except (List Char) (List (List Char)))
    (readLen : List Char → Except (List Char) ℚ) :
    Except (List Char) (AudioMap × List (List Char)) :=
  match listSounds with
  | Except.error e => Except.error e
  | Except.ok filenames =>
    match listBacking with
    | Except.error e => Except.error e
    | Except.ok backing_filenames =>
      let bt := buildBackingTracks readLen backing_filenames
      Except.ok
        ({ backing_tracks := bt.fst
           sounds := buildSoundlist assetsSoundsRoot filenames }, bt.snd)

/-- Interleave a separator between consecutive segments.  A filename in
which ".wav" occurs exactly at the separator positions of
`joinWith wav parts` exercises the replacement rule at each occurrence. -/
def joinWith (sep : List Char) : List (List Char) → List Char
  | [] => []
  | [p] => p
  | p :: q :: rest => p ++ sep ++ joinWith sep (q :: rest)

lemma isSubstr_cons_false {old : List Char} {c : Char} {rest : List Char}
    (h : isSubstr old (c :: rest) = false) :
    old.isPrefixOf (c :: rest) = false ∧ isSubstr old rest = false := by
  simpa [isSubstr, Bool.or_eq_false_iff] using h

lemma pyReplaceAux_skip (old new : List Char) :
    ∀ (s : List Char) (k : Nat),
      pyReplaceAux old new k s = pyReplaceAux old new 0 (s.drop k) := by
  intro s
  induction s with
  | nil => intro k; cases k <;> simp [pyReplaceAux]
  | cons c rest ih =>
    intro k
    cases k with
    | zero => rfl
    | succ k => exact ih k

lemma pyReplace_cons_pos {old : List Char} (new : List Char) {c : Char}
    {rest : List Char} (h1 : old.isPrefixOf (c :: rest) = true)
    (h2 : old ≠ []) :
    pyReplace old new (c :: rest)
      = new ++ pyReplace old new (rest.drop (old.length - 1)) := by
  have step : pyReplace old new (c :: rest)
      = if old.isPrefixOf (c :: rest) ∧ old ≠ [] then
          new ++ pyReplaceAux old new (old.length - 1) rest
        else c :: pyReplaceAux old new 0 rest := rfl
  rw [step, if_pos ⟨h1, h2⟩, pyReplaceAux_skip]
  rfl

lemma pyReplace_cons_neg {old : List Char} (new : List Char) {c : Char}
    {rest : List Char} (h : old.isPrefixOf (c :: rest) = false) :
    pyReplace old new (c :: rest) = c :: pyReplace old new rest := by
  have step : pyReplace old new (c :: rest)
      = if old.isPrefixOf (c :: rest) ∧ old ≠ [] then
          new ++ pyReplaceAux old new (old.length - 1) rest
        else c :: pyReplaceAux old new 0 rest := rfl
  rw [step, if_neg]
  · rfl
  · rintro ⟨ha, -⟩
    rw [h] at ha
    exact Bool.false_ne_true ha

lemma pyReplace_of_not_substr {old : List Char} (new : List Char) :
    ∀ {s : List Char}, isSubstr old s = false → pyReplace old new s = s := by
  intro s
  induction s with
  | nil => intro _; rfl
  | cons c rest ih =>
    intro h
    obtain ⟨h1, h2⟩ := isSubstr_cons_false h
    rw [pyReplace_cons_neg new h1, ih h2]

lemma wav_isPrefixOf_append_false (t : List Char) :
    ∀ {p : List Char}, p ≠ [] → isSubstr wav p = false →
      wav.isPrefixOf (p ++ wav ++ t) = false := by
  intro p hp h
  match p with
  | [] => exact absurd rfl hp
  | [c] =>
    show wav.isPrefixOf (c :: '.' :: 'w' :: 'a' :: 'v' :: t) = false
    have hw : (('w' : Char) == '.') = false := by decide
    simp [wav, List.isPrefixOf, hw]
  | [c, d] =>
    show wav.isPrefixOf (c :: d :: '.' :: 'w' :: 'a' :: 'v' :: t) = false
    have ha : (('a' : Char) == '.') = false := by decide
    simp [wav, List.isPrefixOf, ha]
  | [c, d, e] =>
    show wav.isPrefixOf (c :: d :: e :: '.' :: 'w' :: 'a' :: 'v' :: t) = false
    have hv : (('v' : Char) == '.') = false := by decide
    simp [wav, List.isPrefixOf, hv]
  | c :: d :: e :: f :: p' =>
    have h1 : wav.isPrefixOf (c :: d :: e :: f :: p') = false :=
      (isSubstr_cons_false h).1
    show wav.isPrefixOf (c :: d :: e :: f :: (p' ++ wav ++ t)) = false
    simp only [wav, List.isPrefixOf, Bool.and_eq_false_iff] at h1 ⊢
    simpa using h1

lemma pyReplace_append_wav (new : List Char) :
    ∀ (p t : List Char), isSubstr wav p = false →
      pyReplace wav new (p ++ wav ++ t) = p ++ new ++ pyReplace wav new t := by
  intro p
  induction p with
  | nil =>
    intro t _
    have hpre : wav.isPrefixOf ('.' :: (['w', 'a', 'v'] ++ t)) = true := by
      rw [List.isPrefixOf_iff_prefix]
      exact List.prefix_append wav t
    have := pyReplace_cons_pos new hpre (by simp [wav])
    simpa [List.drop_left] using this
  | cons c p' ih =>
    intro t h
    obtain ⟨-, h2⟩ := isSubstr_cons_false h
    have hnp : wav.isPrefixOf ((c :: p') ++ wav ++ t) = false :=
      wav_isPrefixOf_append_false t (by simp) h
    have step : (c :: p') ++ wav ++ t = c :: (p' ++ wav ++ t) := rfl
    rw [step] at hnp
    rw [step, pyReplace_cons_neg new hnp, ih t h2]
    simp

lemma pyReplace_joinWith (new : List Char) :
    ∀ (parts : List (List Char)),
      (∀ p ∈ parts, isSubstr wav p = false) →
      pyReplace wav new (joinWith wav parts) = joinWith new parts := by
  intro parts
  induction parts with
  | nil => intro _; rfl
  | cons p rest ih =>
    intro h
    cases rest with
    | nil =>
      show pyReplace wav new p = p
      exact pyReplace_of_not_substr new (h p (by simp))
    | cons q rest' =>
      show pyReplace wav new (p ++ wav ++ joinWith wav (q :: rest'))
          = p ++ new ++ joinWith new (q :: rest')
      rw [pyReplace_append_wav new p _ (h p (by simp)),
        ih (fun r hr => h r (List.mem_cons_of_mem p hr))]

/-- C1: the candidate icon filename checked against the listing is the
filename with ".wav" replaced by the icon suffix "__icon.<extension>" —
the replacement applies at every occurrence of ".wav" (first conjunct,
stated for an arbitrary decomposition of the filename into occurrence-free
segments separated by ".wav"), and for a filename in which ".wav" occurs
only as the trailing extension it is exactly the filename with the trailing
".wav" removed and the icon suffix appended (second conjunct). -/
theorem c1_icon_candidate_rule (parts : List (List Char)) (g extension : List Char)
    (hparts : ∀ p ∈ parts, isSubstr wav p = false)
    (hg : isSubstr wav g = false) :
    iconCandidate (joinWith wav parts) extension
        = joinWith (iconSuffix extension) parts
    ∧ iconCandidate (g ++ wav) extension = g ++ iconSuffix extension := by
  constructor
  · exact pyReplace_joinWith (iconSuffix extension) parts hparts
  · show pyReplace wav (iconSuffix extension) (g ++ wav)
        = g ++ iconSuffix extension
    have step : g ++ wav = g ++ wav ++ [] := by simp
    rw [step, pyReplace_append_wav (iconSuffix extension) g [] hg]
    simp [pyReplace, pyReplaceAux]

/-- Witness for C1 at the filename "a.wavb.wav" (two occurrences of ".wav")
and at the filename "kick.wav" (one trailing occurrence). -/
theorem c1_icon_candidate_rule_witness :
    iconCandidate (joinWith wav [['a'], ['b'], []]) pngExt
        = joinWith (iconSuffix pngExt) [['a'], ['b'], []]
    ∧ iconCandidate (['k', 'i', 'c', 'k'] ++ wav) pngExt
        = ['k', 'i', 'c', 'k'] ++ iconSuffix pngExt :=
  c1_icon_candidate_rule [['a'], ['b'], []] ['k', 'i', 'c', 'k'] pngExt
    (by decide) (by decide)

/-- C2: in the extended variant, an entry whose icon resolved has an
`audio` field rooted at "sounds/" but an `icon` field rooted at the
different prefix "assets/sounds/". -/
theorem c2_asset_roots_differ (filenames : List (List Char)) (f ic : List Char)
    (_hf : wav.isSuffixOf f = true)
    (hic : (soundEntry assetsSoundsRoot filenames f).icon = some ic) :
    soundsRoot <+: (soundEntry assetsSoundsRoot filenames f).audio
    ∧ assetsSoundsRoot <+: ic
    ∧ soundsRoot ≠ assetsSoundsRoot := by
  refine ⟨List.prefix_append _ _, ?_, by decide⟩
  simp only [soundEntry, Option.map_eq_some'] at hic
  obtain ⟨ic₀, -, rfl⟩ := hic
  exact List.prefix_append _ _

/-- Witness for C2 at the listing ["kick.wav", "kick__icon.png"]. -/
theorem c2_asset_roots_differ_witness :
    soundsRoot <+:
      (soundEntry assetsSoundsRoot
        [['k', 'i', 'c', 'k', '.', 'w', 'a', 'v'],
         ['k', 'i', 'c', 'k', '_', '_', 'i', 'c', 'o', 'n', '.', 'p', 'n', 'g']]
        ['k', 'i', 'c', 'k', '.', 'w', 'a', 'v']).audio
    ∧ assetsSoundsRoot <+:
        (assetsSoundsRoot ++
          ['k', 'i', 'c', 'k', '_', '_', 'i', 'c', 'o', 'n', '.', 'p', 'n', 'g'])
    ∧ soundsRoot ≠ assetsSoundsRoot :=
  c2_asset_roots_differ
    [['k', 'i', 'c', 'k', '.', 'w', 'a', 'v'],
     ['k', 'i', 'c', 'k', '_', '_', 'i', 'c', 'o', 'n', '.', 'p', 'n', 'g']]
    ['k', 'i', 'c', 'k', '.', 'w', 'a', 'v']
    (assetsSoundsRoot ++
      ['k', 'i', 'c', 'k', '_', '_', 'i', 'c', 'o', 'n', '.', 'p', 'n', 'g'])
    (by decide) (by decide)

/-- C4: when the png icon candidate is among the scanned filenames the
entry's icon is the png candidate's path (so in particular when both
candidates are present the png one wins), and when neither candidate is
present the icon is `none`. -/
theorem c4_png_precedence (iconRoot : List Char)
    (filenames : List (List Char)) (f : List Char) :
    (iconCandidate f pngExt ∈ filenames →
      (soundEntry iconRoot filenames f).icon
        = some (iconRoot ++ iconCandidate f pngExt))
    ∧ (iconCandidate f pngExt ∉ filenames →
      iconCandidate f svgExt ∉ filenames →
      (soundEntry iconRoot filenames f).icon = none) := by
  constructor
  · intro hp
    have h1 : findIcon filenames f extensions = some (iconCandidate f pngExt) := by
      show (if iconCandidate f pngExt ∈ filenames then
            some (iconCandidate f pngExt)
          else findIcon filenames f [svgExt]) = some (iconCandidate f pngExt)
      rw [if_pos hp]
    show (findIcon filenames f extensions).map (fun ic => iconRoot ++ ic)
        = some (iconRoot ++ iconCandidate f pngExt)
    rw [h1]
    rfl
  · intro hp hs
    have h1 : findIcon filenames f extensions = none := by
      show (if iconCandidate f pngExt ∈ filenames then
            some (iconCandidate f pngExt)
          else findIcon filenames f [svgExt]) = none
      rw [if_neg hp]
      show (if iconCandidate f svgExt ∈ filenames then
            some (iconCandidate f svgExt)
          else findIcon filenames f []) = none
      rw [if_neg hs]
      rfl
    show (findIcon filenames f extensions).map (fun ic => iconRoot ++ ic) = none
    rw [h1]
    rfl

/-- Witness for C4: with both icons listed the png one is chosen; with
neither listed the icon is `none`. -/
theorem c4_png_precedence_witness :
    (soundEntry soundsRoot
      [['k', '.', 'w', 'a', 'v'],
       ['k', '_', '_', 'i', 'c', 'o', 'n', '.', 'p', 'n', 'g'],
       ['k', '_', '_', 'i', 'c', 'o', 'n', '.', 's', 'v', 'g']]
      ['k', '.', 'w', 'a', 'v']).icon
      = some (soundsRoot ++ iconCandidate ['k', '.', 'w', 'a', 'v'] pngExt)
    ∧ (soundEntry soundsRoot [['k', '.', 'w', 'a', 'v']]
        ['k', '.', 'w', 'a', 'v']).icon = none :=
  ⟨(c4_png_precedence soundsRoot
      [['k', '.', 'w', 'a', 'v'],
       ['k', '_', '_', 'i', 'c', 'o', 'n', '.', 'p', 'n', 'g'],
       ['k', '_', '_', 'i', 'c', 'o', 'n', '.', 's', 'v', 'g']]
      ['k', '.', 'w', 'a', 'v']).1 (by decide),
   (c4_png_precedence soundsRoot [['k', '.', 'w', 'a', 'v']]
      ['k', '.', 'w', 'a', 'v']).2 (by decide) (by decide)⟩

/-- C7: a failing directory scan is fatal — the error propagates out of
the run and no manifest is produced; in the extended variant this holds
for either of the two scanned directories. -/
theorem c7_fatal_scan_failure (e : List Char)
    (lb : Except (List Char) (List (List Char)))
    (rl : List Char → Except (List Char) ℚ) (fns : List (List Char)) :
    runSimple (Except.error e) = Except.error e
    ∧ runAudioMap (Except.error e) lb rl = Except.error e
    ∧ runAudioMap (Except.ok fns) (Except.error e) rl = Except.error e :=
  ⟨rfl, rfl, rfl⟩

/-- C9: the end-to-end example — the listing
["kick.wav", "kick__icon.png", "snare.wav"] produces exactly the two
entries [("sounds/kick.wav", "sounds/kick__icon.png"),
("sounds/snare.wav", null)], in that order. -/
theorem c9_end_to_end_example :
    buildSoundlist soundsRoot
      [['k', 'i', 'c', 'k', '.', 'w', 'a', 'v'],
       ['k', 'i', 'c', 'k', '_', '_', 'i', 'c', 'o', 'n', '.', 'p', 'n', 'g'],
       ['s', 'n', 'a', 'r', 'e', '.', 'w', 'a', 'v']]
    = [{ audio := ['s', 'o', 'u', 'n', 'd', 's', '/', 'k', 'i', 'c', 'k',
          '.', 'w', 'a', 'v']
         icon := some ['s', 'o', 'u', 'n', 'd', 's', '/', 'k', 'i', 'c',
          'k', '_', '_', 'i', 'c', 'o', 'n', '.', 'p', 'n', 'g'] },
       { audio := ['s', 'o', 'u', 'n', 'd', 's', '/', 's', 'n', 'a', 'r',
          'e', '.', 'w', 'a', 'v']
         icon := none }] := by
  decide

lemma lexLe_cons_iff {x y : Char} {xs ys : List Char} :
    lexLe (x :: xs) (y :: ys) = true
      ↔ x < y ∨ (x = y ∧ lexLe xs ys = true) := by
  by_cases h1 : x < y
  · simp [lexLe, h1]
  · by_cases h2 : y < x
    · simp only [lexLe, if_neg h1, if_pos h2]
      constructor
      · intro hf; exact absurd hf (by simp)
      · rintro (h | ⟨rfl, -⟩)
        · exact absurd h h1
        · exact absurd h2 (lt_irrefl x)
    · have hxy : x = y := le_antisymm (not_lt.mp h2) (not_lt.mp h1)
      subst hxy
      simp [lexLe, h1, h2]

lemma lexLe_total : ∀ a b : List Char, lexLe a b = true ∨ lexLe b a = true := by
  intro a
  induction a with
  | nil => intro b; left; rfl
  | cons x xs ih =>
    intro b
    cases b with
    | nil => right; rfl
    | cons y ys =>
      rcases lt_trichotomy x y with h | h | h
      · left; exact lexLe_cons_iff.mpr (Or.inl h)
      · rcases ih ys with h' | h'
        · left; exact lexLe_cons_iff.mpr (Or.inr ⟨h, h'⟩)
        · right; exact lexLe_cons_iff.mpr (Or.inr ⟨h.symm, h'⟩)
      · right; exact lexLe_cons_iff.mpr (Or.inl h)

lemma lexLe_trans :
    ∀ a b c : List Char, lexLe a b = true → lexLe b c = true →
      lexLe a c = true := by
  intro a
  induction a with
  | nil => intro b c _ _; rfl
  | cons x xs ih =>
    intro b c hab hbc
    cases b with
    | nil => exact absurd hab (by simp [lexLe])
    | cons y ys =>
      cases c with
      | nil => exact absurd hbc (by simp [lexLe])
      | cons z zs =>
        rcases lexLe_cons_iff.mp hab with h | ⟨rfl, hxs⟩ <;>
          rcases lexLe_cons_iff.mp hbc with h' | ⟨h'', hys⟩
        · exact lexLe_cons_iff.mpr (Or.inl (lt_trans h h'))
        · exact lexLe_cons_iff.mpr (Or.inl (h'' ▸ h))
        · exact lexLe_cons_iff.mpr (Or.inl h')
        · exact lexLe_cons_iff.mpr (Or.inr ⟨h'', ih ys zs hxs hys⟩)

lemma lexLe_antisymm :
    ∀ a b : List Char, lexLe a b = true → lexLe b a = true → a = b := by
  intro a
  induction a with
  | nil =>
    intro b _ hba
    cases b with
    | nil => rfl
    | cons y ys => exact absurd hba (by simp [lexLe])
  | cons x xs ih =>
    intro b hab hba
    cases b with
    | nil => exact absurd hab (by simp [lexLe])
    | cons y ys =>
      rcases lexLe_cons_iff.mp hab with h | ⟨rfl, hxs⟩
      · rcases lexLe_cons_iff.mp hba with h' | ⟨h'', -⟩
        · exact absurd (lt_trans h h') (lt_irrefl x)
        · exact absurd (h'' ▸ h) (lt_irrefl y)
      · rcases lexLe_cons_iff.mp hba with h' | ⟨-, hys⟩
        · exact absurd h' (lt_irrefl x)
        · rw [ih ys hxs hys]

instance : IsTotal SoundEntry entryLe :=
  ⟨fun a b => lexLe_total a.audio b.audio⟩

instance : IsTrans SoundEntry entryLe :=
  ⟨fun a b c => lexLe_trans a.audio b.audio c.audio⟩

instance : IsTotal BackingTrackEntry btLe :=
  ⟨fun a b => lexLe_total a.audio b.audio⟩

instance : IsTrans BackingTrackEntry btLe :=
  ⟨fun a b c => lexLe_trans a.audio b.audio c.audio⟩

/-- C5: for every input listing (hence for every permutation of it), the
sound-entry sequence and the backing-track sequence of the written manifest
are sorted ascending, lexicographically, by the `audio` field. -/
theorem c5_output_sorted (iconRoot : List Char)
    (filenames backing_filenames : List (List Char))
    (readLen : List Char → Except (List Char) ℚ) :
    List.Sorted entryLe (buildSoundlist iconRoot filenames)
    ∧ List.Sorted btLe (buildBackingTracks readLen backing_filenames).fst :=
  ⟨List.sorted_insertionSort entryLe _, List.sorted_insertionSort btLe _⟩

lemma countP_beq_eq_one {α : Type} [BEq α] [LawfulBEq α] {l : List α}
    (hnd : l.Nodup) {f : α} (hf : f ∈ l) :
    l.countP (fun g => g == f) = 1 := by
  induction l with
  | nil => simp at hf
  | cons a l' ih =>
    rw [List.countP_cons]
    rcases List.mem_cons.mp hf with rfl | hf'
    · have hz : l'.countP (fun g => g == f) = 0 := by
        rw [List.countP_eq_zero]
        intro g hg hgf
        exact (List.nodup_cons.mp hnd).1 (beq_iff_eq.mp hgf ▸ hg)
      simp [hz]
    · have ha : (a == f) = false := by
        rw [beq_eq_false_iff_ne]
        exact fun h => (List.nodup_cons.mp hnd).1 (h ▸ hf')
      rw [ha, ih (List.nodup_cons.mp hnd).2 hf']
      simp

/-- C3: with a duplicate-free directory listing, every filename ending in
".wav" yields exactly one entry (counted by its `audio` path), and no other
filename — icon files included — yields any top-level entry. -/
theorem c3_wav_bijection (iconRoot : List Char) (filenames : List (List Char))
    (hnd : filenames.Nodup) (f : List Char) (hf : f ∈ filenames) :
    (wav.isSuffixOf f = true →
      (buildSoundlist iconRoot filenames).countP
        (fun e => e.audio == soundsRoot ++ f) = 1)
    ∧ (wav.isSuffixOf f = false →
      ∀ e ∈ buildSoundlist iconRoot filenames, e.audio ≠ soundsRoot ++ f) := by
  have hperm : List.Perm (buildSoundlist iconRoot filenames)
      ((filenames.filter (fun g => wav.isSuffixOf g)).map
        (soundEntry iconRoot filenames)) :=
    List.perm_insertionSort _ _
  constructor
  · intro hwav
    rw [hperm.countP_eq, List.countP_map]
    have hcong :
        List.countP
          ((fun e : SoundEntry => e.audio == soundsRoot ++ f)
            ∘ soundEntry iconRoot filenames)
          (filenames.filter (fun g => wav.isSuffixOf g))
        = List.countP (fun g => g == f)
            (filenames.filter (fun g => wav.isSuffixOf g)) := by
      apply List.countP_congr
      intro g _
      show ((soundsRoot ++ g == soundsRoot ++ f) = true) ↔ ((g == f) = true)
      simp only [beq_iff_eq]
      exact ⟨fun h => List.append_cancel_left h, fun h => by rw [h]⟩
    rw [hcong]
    exact countP_beq_eq_one (hnd.filter _) (List.mem_filter.mpr ⟨hf, hwav⟩)
  · intro hwav e he heq
    rw [hperm.mem_iff, List.mem_map] at he
    obtain ⟨g, hg, rfl⟩ := he
    have hgf : g = f := List.append_cancel_left heq
    subst hgf
    rw [(List.mem_filter.mp hg).2] at hwav
    exact Bool.noConfusion hwav

/-- Witness for C3 at the listing ["kick.wav", "kick__icon.png"]: the
".wav" file is counted once and the icon file yields no entry. -/
theorem c3_wav_bijection_witness :
    (buildSoundlist soundsRoot
      [['k', 'i', 'c', 'k', '.', 'w', 'a', 'v'],
       ['k', 'i', 'c', 'k', '_', '_', 'i', 'c', 'o', 'n', '.', 'p', 'n', 'g']]).countP
      (fun e => e.audio
        == soundsRoot ++ ['k', 'i', 'c', 'k', '.', 'w', 'a', 'v']) = 1
    ∧ ∀ e ∈ buildSoundlist soundsRoot
        [['k', 'i', 'c', 'k', '.', 'w', 'a', 'v'],
         ['k', 'i', 'c', 'k', '_', '_', 'i', 'c', 'o', 'n', '.', 'p', 'n', 'g']],
      e.audio ≠ soundsRoot
        ++ ['k', 'i', 'c', 'k', '_', '_', 'i', 'c', 'o', 'n', '.', 'p', 'n', 'g'] :=
  ⟨(c3_wav_bijection soundsRoot
      [['k', 'i', 'c', 'k', '.', 'w', 'a', 'v'],
       ['k', 'i', 'c', 'k', '_', '_', 'i', 'c', 'o', 'n', '.', 'p', 'n', 'g']]
      (by decide) ['k', 'i', 'c', 'k', '.', 'w', 'a', 'v'] (by decide)).1
      (by decide),
   (c3_wav_bijection soundsRoot
      [['k', 'i', 'c', 'k', '.', 'w', 'a', 'v'],
       ['k', 'i', 'c', 'k', '_', '_', 'i', 'c', 'o', 'n', '.', 'p', 'n', 'g']]
      (by decide)
      ['k', 'i', 'c', 'k', '_', '_', 'i', 'c', 'o', 'n', '.', 'p', 'n', 'g']
      (by decide)).2 (by decide)⟩

lemma processBacking_audio (readLen : List Char → Except (List Char) ℚ)
    (g : List Char) :
    (processBacking readLen g).fst.audio = backingRoot ++ g := by
  unfold processBacking
  cases readLen (backingPath g) <;> rfl

/-- C6: a failing duration read for an ".mp3" file emits the warning naming
the file and the cause, still appends an entry with a null duration for
that file, and does not prevent any other qualifying file from producing
its entry. -/
theorem c6_per_item_failure_nonfatal
    (readLen : List Char → Except (List Char) ℚ)
    (backing_filenames : List (List Char)) (f e : List Char)
    (hf : f ∈ backing_filenames) (hmp3 : mp3.isSuffixOf f = true)
    (herr : readLen (backingPath f) = Except.error e) :
    warnMsg f e ∈ (buildBackingTracks readLen backing_filenames).snd
    ∧ ({ audio := backingRoot ++ f, duration := none } : BackingTrackEntry)
        ∈ (buildBackingTracks readLen backing_filenames).fst
    ∧ ∀ g ∈ backing_filenames, mp3.isSuffixOf g = true →
      ∃ entry ∈ (buildBackingTracks readLen backing_filenames).fst,
        entry.audio = backingRoot ++ g := by
  have hfil : f ∈ backing_filenames.filter (fun g => mp3.isSuffixOf g) :=
    List.mem_filter.mpr ⟨hf, hmp3⟩
  have hpb : processBacking readLen f
      = ({ audio := backingRoot ++ f, duration := none }, [warnMsg f e]) := by
    unfold processBacking
    rw [herr]
  refine ⟨?_, ?_, ?_⟩
  · show warnMsg f e ∈
      (((backing_filenames.filter (fun g => mp3.isSuffixOf g)).map
        (processBacking readLen)).map Prod.snd).flatten
    rw [List.mem_flatten]
    refine ⟨[warnMsg f e], ?_, by simp⟩
    rw [List.mem_map]
    refine ⟨processBacking readLen f, List.mem_map.mpr ⟨f, hfil, rfl⟩, ?_⟩
    rw [hpb]
  · show _ ∈ List.insertionSort btLe
      (((backing_filenames.filter (fun g => mp3.isSuffixOf g)).map
        (processBacking readLen)).map Prod.fst)
    rw [List.mem_insertionSort, List.mem_map]
    refine ⟨processBacking readLen f, List.mem_map.mpr ⟨f, hfil, rfl⟩, ?_⟩
    rw [hpb]
  · intro g hg hgmp3
    refine ⟨(processBacking readLen g).fst, ?_, processBacking_audio readLen g⟩
    show _ ∈ List.insertionSort btLe
      (((backing_filenames.filter (fun h => mp3.isSuffixOf h)).map
        (processBacking readLen)).map Prod.fst)
    rw [List.mem_insertionSort, List.mem_map]
    exact ⟨processBacking readLen g,
      List.mem_map.mpr ⟨g, List.mem_filter.mpr ⟨hg, hgmp3⟩, rfl⟩, rfl⟩

/-- Witness for C6: one corrupt and one valid mp3; the corrupt one gets a
warning and a null-duration entry, and both files get entries. -/
theorem c6_per_item_failure_nonfatal_witness :
    (warnMsg ['b', '.', 'm', 'p', '3'] ['o', 'o', 'p', 's'] ∈
      (buildBackingTracks
        (fun p => if p == backingPath ['b', '.', 'm', 'p', '3'] then
            Except.error ['o', 'o', 'p', 's'] else Except.ok 5)
        [['b', '.', 'm', 'p', '3'], ['l', '.', 'm', 'p', '3']]).snd)
    ∧ ({ audio := backingRoot ++ ['b', '.', 'm', 'p', '3'], duration := none } :
        BackingTrackEntry) ∈
      (buildBackingTracks
        (fun p => if p == backingPath ['b', '.', 'm', 'p', '3'] then
            Except.error ['o', 'o', 'p', 's'] else Except.ok 5)
        [['b', '.', 'm', 'p', '3'], ['l', '.', 'm', 'p', '3']]).fst
    ∧ ∀ g ∈ [['b', '.', 'm', 'p', '3'], ['l', '.', 'm', 'p', '3']],
      mp3.isSuffixOf g = true →
      ∃ entry ∈
        (buildBackingTracks
          (fun p => if p == backingPath ['b', '.', 'm', 'p', '3'] then
              Except.error ['o', 'o', 'p', 's'] else Except.ok 5)
          [['b', '.', 'm', 'p', '3'], ['l', '.', 'm', 'p', '3']]).fst,
        entry.audio = backingRoot ++ g :=
  c6_per_item_failure_nonfatal
    (fun p => if p == backingPath ['b', '.', 'm', 'p', '3'] then
        Except.error ['o', 'o', 'p', 's'] else Except.ok 5)
    [['b', '.', 'm', 'p', '3'], ['l', '.', 'm', 'p', '3']]
    ['b', '.', 'm', 'p', '3'] ['o', 'o', 'p', 's']
    (by decide) (by decide) (by simp)

/-- Strict version of `entryLe`: also requires distinct sort keys. -/
def entryLt (a b : SoundEntry) : Prop := entryLe a b ∧ a.audio ≠ b.audio

instance : IsAntisymm SoundEntry entryLt :=
  ⟨fun a b hab hba =>
    absurd (lexLe_antisymm a.audio b.audio hab.1 hba.1) hab.2⟩

/-- Strict version of `btLe`: also requires distinct sort keys. -/
def btLt (a b : BackingTrackEntry) : Prop := btLe a b ∧ a.audio ≠ b.audio

instance : IsAntisymm BackingTrackEntry btLt :=
  ⟨fun a b hab hba =>
    absurd (lexLe_antisymm a.audio b.audio hab.1 hba.1) hab.2⟩

lemma sorted_nodup_audio_eq {l₁ l₂ : List SoundEntry} (hp : List.Perm l₁ l₂)
    (hs₁ : List.Sorted entryLe l₁) (hs₂ : List.Sorted entryLe l₂)
    (hn₁ : (l₁.map SoundEntry.audio).Nodup) : l₁ = l₂ := by
  have hn₂ : (l₂.map SoundEntry.audio).Nodup := (hp.map _).nodup hn₁
  have hlt₁ : List.Sorted entryLt l₁ :=
    (hs₁.and (List.pairwise_map.mp hn₁)).imp (fun h => h)
  have hlt₂ : List.Sorted entryLt l₂ :=
    (hs₂.and (List.pairwise_map.mp hn₂)).imp (fun h => h)
  exact List.eq_of_perm_of_sorted hp hlt₁ hlt₂

lemma sorted_nodup_audio_eq_bt {l₁ l₂ : List BackingTrackEntry}
    (hp : List.Perm l₁ l₂)
    (hs₁ : List.Sorted btLe l₁) (hs₂ : List.Sorted btLe l₂)
    (hn₁ : (l₁.map BackingTrackEntry.audio).Nodup) : l₁ = l₂ := by
  have hn₂ : (l₂.map BackingTrackEntry.audio).Nodup := (hp.map _).nodup hn₁
  have hlt₁ : List.Sorted btLt l₁ :=
    (hs₁.and (List.pairwise_map.mp hn₁)).imp (fun h => h)
  have hlt₂ : List.Sorted btLt l₂ :=
    (hs₂.and (List.pairwise_map.mp hn₂)).imp (fun h => h)
  exact List.eq_of_perm_of_sorted hp hlt₁ hlt₂

lemma findIcon_congr {l₁ l₂ : List (List Char)}
    (h : ∀ x : List Char, x ∈ l₁ ↔ x ∈ l₂) (f : List Char) :
    ∀ exts, findIcon l₁ f exts = findIcon l₂ f exts := by
  intro exts
  induction exts with
  | nil => rfl
  | cons e rest ih =>
    show (if iconCandidate f e ∈ l₁ then some (iconCandidate f e)
        else findIcon l₁ f rest)
      = (if iconCandidate f e ∈ l₂ then some (iconCandidate f e)
        else findIcon l₂ f rest)
    by_cases hc : iconCandidate f e ∈ l₂
    · rw [if_pos ((h _).mpr hc), if_pos hc]
    · rw [if_neg (fun hx => hc ((h _).mp hx)), if_neg hc]
      exact ih

lemma soundEntry_congr {l₁ l₂ : List (List Char)}
    (h : ∀ x : List Char, x ∈ l₁ ↔ x ∈ l₂) (iconRoot f : List Char) :
    soundEntry iconRoot l₁ f = soundEntry iconRoot l₂ f := by
  unfold soundEntry
  rw [findIcon_congr h f extensions]

/-- C8: with fixed (unchanged) listings and metadata-read results, the
output manifest is a function of the listings as sets — two directory
enumerations that are permutations of each other produce identical sound
and backing-track sequences, so two runs on an unchanged directory produce
identical (hence byte-identical once serialized) output. -/
theorem c8_order_independent (iconRoot : List Char)
    (l₁ l₂ b₁ b₂ : List (List Char))
    (readLen : List Char → Except (List Char) ℚ)
    (hl : List.Perm l₁ l₂) (hnd : l₁.Nodup)
    (hb : List.Perm b₁ b₂) (hbnd : b₁.Nodup) :
    buildSoundlist iconRoot l₁ = buildSoundlist iconRoot l₂
    ∧ (buildBackingTracks readLen b₁).fst
        = (buildBackingTracks readLen b₂).fst := by
  constructor
  · have hmem : ∀ x : List Char, x ∈ l₁ ↔ x ∈ l₂ := fun x => hl.mem_iff
    have hbase : List.Perm
        ((l₁.filter (fun g => wav.isSuffixOf g)).map (soundEntry iconRoot l₁))
        ((l₂.filter (fun g => wav.isSuffixOf g)).map (soundEntry iconRoot l₂)) := by
      rw [List.map_congr_left
        (fun a _ => soundEntry_congr hmem iconRoot a)]
      exact (hl.filter _).map _
    have hp : List.Perm (buildSoundlist iconRoot l₁) (buildSoundlist iconRoot l₂) :=
      (List.perm_insertionSort _ _).trans
        (hbase.trans (List.perm_insertionSort _ _).symm)
    apply sorted_nodup_audio_eq hp (List.sorted_insertionSort _ _)
      (List.sorted_insertionSort _ _)
    have hmm : List.Perm ((buildSoundlist iconRoot l₁).map SoundEntry.audio)
        ((l₁.filter (fun g => wav.isSuffixOf g)).map
          (fun f => soundsRoot ++ f)) := by
      have h1 := (List.perm_insertionSort entryLe
        ((l₁.filter (fun g => wav.isSuffixOf g)).map
          (soundEntry iconRoot l₁))).map SoundEntry.audio
      rw [List.map_map,
        List.map_congr_left (fun a _ => (rfl :
          (SoundEntry.audio ∘ soundEntry iconRoot l₁) a = soundsRoot ++ a))]
        at h1
      exact h1
    exact hmm.symm.nodup
      ((hnd.filter _).map (fun a b h => List.append_cancel_left h))
  · have hbase : List.Perm
        ((b₁.filter (fun g => mp3.isSuffixOf g)).map (processBacking readLen))
        ((b₂.filter (fun g => mp3.isSuffixOf g)).map (processBacking readLen)) :=
      (hb.filter _).map _
    show List.insertionSort btLe
        (((b₁.filter (fun g => mp3.isSuffixOf g)).map
          (processBacking readLen)).map Prod.fst)
      = List.insertionSort btLe
        (((b₂.filter (fun g => mp3.isSuffixOf g)).map
          (processBacking readLen)).map Prod.fst)
    have hp : List.Perm
        (List.insertionSort btLe
          (((b₁.filter (fun g => mp3.isSuffixOf g)).map
            (processBacking readLen)).map Prod.fst))
        (List.insertionSort btLe
          (((b₂.filter (fun g => mp3.isSuffixOf g)).map
            (processBacking readLen)).map Prod.fst)) :=
      (List.perm_insertionSort _ _).trans
        ((hbase.map Prod.fst).trans (List.perm_insertionSort _ _).symm)
    apply sorted_nodup_audio_eq_bt hp (List.sorted_insertionSort _ _)
      (List.sorted_insertionSort _ _)
    have hmm : List.Perm
        ((List.insertionSort btLe
          (((b₁.filter (fun g => mp3.isSuffixOf g)).map
            (processBacking readLen)).map Prod.fst)).map
          BackingTrackEntry.audio)
        ((b₁.filter (fun g => mp3.isSuffixOf g)).map
          (fun g => backingRoot ++ g)) := by
      have heq : (((b₁.filter (fun g => mp3.isSuffixOf g)).map
            (processBacking readLen)).map Prod.fst).map BackingTrackEntry.audio
          = (b₁.filter (fun g => mp3.isSuffixOf g)).map
            (fun g => backingRoot ++ g) := by
        rw [List.map_map, List.map_map]
        exact List.map_congr_left (fun g _ => processBacking_audio readLen g)
      have h1 := (List.perm_insertionSort btLe
        (((b₁.filter (fun g => mp3.isSuffixOf g)).map
          (processBacking readLen)).map Prod.fst)).map BackingTrackEntry.audio
      rw [heq] at h1
      exact h1
    exact hmm.symm.nodup
      ((hbnd.filter _).map (fun a b h => List.append_cancel_left h))

/-- Witness for C8: two enumeration orders of the same two directories
yield identical manifests. -/
theorem c8_order_independent_witness :
    buildSoundlist soundsRoot
      [['a', '.', 'w', 'a', 'v'], ['b', '.', 'w', 'a', 'v']]
      = buildSoundlist soundsRoot
        [['b', '.', 'w', 'a', 'v'], ['a', '.', 'w', 'a', 'v']]
    ∧ (buildBackingTracks (fun _ => Except.ok 1)
        [['x', '.', 'm', 'p', '3'], ['y', '.', 'm', 'p', '3']]).fst
      = (buildBackingTracks (fun _ => Except.ok 1)
        [['y', '.', 'm', 'p', '3'], ['x', '.', 'm', 'p', '3']]).fst :=
  c8_order_independent soundsRoot
    [['a', '.', 'w', 'a', 'v'], ['b', '.', 'w', 'a', 'v']]
    [['b', '.', 'w', 'a', 'v'], ['a', '.', 'w', 'a', 'v']]
    [['x', '.', 'm', 'p', '3'], ['y', '.', 'm', 'p', '3']]
    [['y', '.', 'm', 'p', '3'], ['x', '.', 'm', 'p', '3']]
    (fun _ => Except.ok 1)
    (List.Perm.swap _ _ _) (by decide)
    (List.Perm.swap _ _ _) (by decide)

end Gamejam
